import Mathlib

/-!
# Verification of `phased_release_messenger.py`

A shallow embedding of the core logic of the phased-release messenger:
the rollout-step parser (`parse_rollout_steps`), the next-step selection
scan inside `main`, and the per-release orchestration loop of `main`.

Rollout fractions (Python floats obtained as `step / 100.0`) are modelled
as rationals; machine-level float rounding plays no role in any property
considered here.  Strings are handled as character lists: `splitComma`
models Python's `split(",")` and `pyInt` models `int()` on ASCII integer
literals (optional sign, digits, single underscores between digits).
Python's `SystemExit`-based control flow is modelled by explicit result
values, and the observable external writes (notification POSTs) and
parser invocations are recorded as an event trace.
-/

namespace PhasedRelease

/-- Python's `raw.split(",")`: split a character list at every comma,
preserving empty tokens, so `n` commas yield `n + 1` tokens and the
empty string yields the single token `""`. -/
def splitComma : List Char → List (List Char)
  | [] => [[]]
  | ',' :: rest => [] :: splitComma rest
  | c :: rest =>
    match splitComma rest with
    | t :: ts => (c :: t) :: ts
    | [] => [[c]]

/-- Drop leading and trailing whitespace characters, modelling Python's
`str.strip()` with no argument. -/
def stripChars (cs : List Char) : List Char :=
  ((cs.dropWhile Char.isWhitespace).reverse.dropWhile Char.isWhitespace).reverse

/-- Accumulating digit scanner for the tail of an integer literal:
accepts `(digit | '_' digit)*`, i.e. further digits with single
underscores allowed only between digits, as Python's `int()` does. -/
def digitTail : Nat → List Char → Option Nat
  | acc, [] => some acc
  | acc, '_' :: c :: rest =>
      if c.isDigit then digitTail (acc * 10 + (c.toNat - 48)) rest else none
  | _, ['_'] => none
  | acc, c :: rest =>
      if c.isDigit then digitTail (acc * 10 + (c.toNat - 48)) rest else none

/-- Python's `int(s)` on a character list: strips whitespace, then an
optional sign, then a non-empty digit sequence (with single underscores
allowed between digits).  Returns `none` where Python raises
`ValueError`. -/
def pyInt (s : List Char) : Option Int :=
  match stripChars s with
  | [] => none
  | c₀ :: rest₀ =>
    let (neg, body) : Bool × List Char :=
      match c₀, rest₀ with
      | '+', r => (false, r)
      | '-', r => (true, r)
      | c, r => (false, c :: r)
    match body with
    | [] => none
    | c :: rest =>
      if c.isDigit then
        match digitTail (c.toNat - 48) rest with
        | some n => some (if neg then -(n : Int) else (n : Int))
        | none => none
      else none

/-- The value Python's `int(s.strip())` computes for one comma-separated
token of the rollout-steps string (line 66 of the source). -/
def tokenInt (s : List Char) : Option Int :=
  pyInt (stripChars s)

/-- Left-to-right evaluation of `int(s.strip())` over a token list,
aborting at the first `ValueError`, as the comprehension inside the
`try` block does. -/
def intsOfTokens : List (List Char) → Option (List Int)
  | [] => some []
  | t :: ts =>
    match tokenInt t with
    | none => none
    | some v =>
      match intsOfTokens ts with
      | none => none
      | some vs => some (v :: vs)

/-- The list comprehension
`[int(s.strip()) for s in rollout_steps_raw.split(",")]`:
`none` when any token raises `ValueError`. -/
def rolloutInts (rollout_steps_raw : String) : Option (List Int) :=
  intsOfTokens (splitComma rollout_steps_raw.data)

/-- The three validation failures `parse_rollout_steps` can raise
(each is a `SystemExit` with a distinct message in the source). -/
inductive ParseError
  | InvalidFormat
  | OutOfRange
  | NotMonotonic
deriving DecidableEq, Repr

/-- `parse_rollout_steps(rollout_steps_raw)` (source lines 45-76):
splits on `","`, converts each stripped token with `int` (a failure
anywhere raises the `InvalidFormat` exit), then rejects any value
outside `[0, 100]` (`OutOfRange`), then rejects any adjacent pair that
is not strictly increasing (`NotMonotonic`), and finally returns the
values divided by `100.0`.  The adjacent-pair check
`any(steps[i] >= steps[i + 1] for i in range(len(steps) - 1))` is
rendered by zipping the list with its tail. -/
def parse_rollout_steps (rollout_steps_raw : String) : Except ParseError (List ℚ) :=
  match rolloutInts rollout_steps_raw with
  | none => .error .InvalidFormat
  | some steps =>
    if steps.any (fun step => step < 0 || step > 100) then
      .error .OutOfRange
    else if (steps.zip steps.tail).any (fun p => p.1 ≥ p.2) then
      .error .NotMonotonic
    else
      .ok (steps.map (fun step => (step : ℚ) / 100))

/-- The next-step scan in `main` (source lines 147-153): starting from
`new_rollout_percentage = None`, take the first step of the schedule
strictly greater than the current rollout percentage. -/
def selectNext (current : ℚ) : List ℚ → Option ℚ
  | [] => none
  | step :: rest => if step > current then some step else selectNext current rest

/-- One release object of the track info: its `status` string and its
`userFraction`. -/
structure Release where
  status : String
  userFraction : ℚ
deriving DecidableEq

/-- Observable actions of one run: an invocation of
`parse_rollout_steps`, or a notification POST carrying the current
fraction and the chosen next fraction. -/
inductive Event
  | parseAttempt : Event
  | post : ℚ → Option ℚ → Event
deriving DecidableEq

/-- Whether an event is a notification POST. -/
def Event.isPost : Event → Bool
  | .post _ _ => true
  | _ => false

/-- How one run of `main` terminates. -/
inductive RunResult
  /-- `sys.exit(0)`: a graceful early exit. -/
  | exitZero
  /-- `SystemExit` raised by `parse_rollout_steps`: a fatal validation exit. -/
  | fatalError (e : ParseError)
  /-- The unhandled `TypeError` from `None * 100` at source line 217,
  raised while the notification payload is being built. -/
  | typeError
  /-- The release loop ran to completion and `main` returned. -/
  | finished
deriving DecidableEq

/-- The release loop of `main` (source lines 125-247) over a list of
releases, returning the trace of observable events and how the run
ends.  For each release in order: status `"completed"` or `"halted"`
exits with code 0 before anything else; otherwise the schedule string is
parsed (a failure is a fatal `SystemExit`), the next step is selected,
and the notification payload is built and POSTed.  When no next step
exists, building the payload evaluates `None * 100` (source line 217)
and the run dies with a `TypeError` before any POST; otherwise the POST
happens and the loop continues with the remaining releases. -/
def processReleases (raw : String) : List Release → List Event × RunResult
  | [] => ([], .finished)
  | r :: rest =>
    if r.status = "completed" then ([], .exitZero)
    else if r.status = "halted" then ([], .exitZero)
    else
      match parse_rollout_steps raw with
      | .error e => ([.parseAttempt], .fatalError e)
      | .ok rollout_steps =>
        match selectNext r.userFraction rollout_steps with
        | none => ([.parseAttempt], .typeError)
        | some next =>
          let tail := processReleases raw rest
          (.parseAttempt :: .post r.userFraction (some next) :: tail.1, tail.2)

/-- The body of `main` from the point the track info is available
(source lines 121-247): `releases = none` models a track info without a
`releases` key, `some []` an empty release list; both exit gracefully
with no events (source lines 121-123).  Otherwise the release loop
runs. -/
def runMain (raw : String) (releases : Option (List Release)) : List Event × RunResult :=
  match releases with
  | none => ([], .exitZero)
  | some [] => ([], .exitZero)
  | some rs => processReleases raw rs

/-- Number of notification POSTs in a trace. -/
def postCount (evs : List Event) : Nat :=
  (evs.filter Event.isPost).length

/-- Whether the release loop fully handles this release and moves on to
the next one: neither terminal status applies and a next step exists, so
the POST succeeds and the loop body runs to its end. -/
def handledInProgress (steps : List ℚ) (r : Release) : Bool :=
  !(r.status == "completed") && !(r.status == "halted") &&
    (selectNext r.userFraction steps).isSome

/-! ## Lemmas about the token conversion -/

theorem intsOfTokens_eq_none_iff (ts : List (List Char)) :
    intsOfTokens ts = none ↔ ∃ t ∈ ts, tokenInt t = none := by
  induction ts with
  | nil => simp [intsOfTokens]
  | cons t ts ih =>
    cases h : tokenInt t with
    | none => simp [intsOfTokens, h]
    | some v =>
      cases h2 : intsOfTokens ts with
      | none =>
        simp only [h2, true_iff] at ih
        simp [intsOfTokens, h, h2, ih]
      | some vs =>
        have ih' : ¬ ∃ t ∈ ts, tokenInt t = none := by
          rw [← ih, h2]; simp
        simp only [intsOfTokens, h, h2]
        constructor
        · intro hfalse; exact absurd hfalse (by simp)
        · rintro ⟨u, hu, hnone⟩
          rcases List.mem_cons.mp hu with rfl | hu
          · exact absurd hnone (by simp [h])
          · exact absurd ⟨u, hu, hnone⟩ ih'

theorem intsOfTokens_isSome_iff (ts : List (List Char)) :
    (intsOfTokens ts).isSome ↔ ∀ t ∈ ts, (tokenInt t).isSome := by
  rw [← Option.ne_none_iff_isSome, Ne, intsOfTokens_eq_none_iff]
  push_neg
  exact forall₂_congr fun t _ => Option.ne_none_iff_isSome

theorem intsOfTokens_congr (ts₁ ts₂ : List (List Char))
    (h : ts₁.map stripChars = ts₂.map stripChars) :
    intsOfTokens ts₁ = intsOfTokens ts₂ := by
  induction ts₁ generalizing ts₂ with
  | nil =>
    cases ts₂ with
    | nil => rfl
    | cons u us => simp at h
  | cons t ts ih =>
    cases ts₂ with
    | nil => simp at h
    | cons u us =>
      simp only [List.map_cons, List.cons.injEq] at h
      have ht : tokenInt t = tokenInt u := by
        unfold tokenInt
        rw [h.1]
      rw [intsOfTokens, intsOfTokens, ht, ih us h.2]

/-! ## Lemmas about the validation checks -/

theorem any_out_of_range_eq_false_iff (steps : List Int) :
    (steps.any (fun step => step < 0 || step > 100) = false) ↔
      ∀ p ∈ steps, 0 ≤ p ∧ p ≤ 100 := by
  simp [List.any_eq_false, not_or, not_lt]

theorem any_adjacent_ge_eq_false_iff (steps : List Int) :
    ((steps.zip steps.tail).any (fun p => p.1 ≥ p.2) = false) ↔
      steps.Chain' (· < ·) := by
  induction steps with
  | nil => simp
  | cons a l ih =>
    cases l with
    | nil => simp
    | cons b l =>
      simp only [List.tail_cons, List.zip_cons_cons, List.any_cons,
        Bool.or_eq_false_iff, decide_eq_false_iff_not, not_le,
        List.chain'_cons] at ih ⊢
      exact and_congr_right fun _ => ih

/-! ## Characterization of `parse_rollout_steps` -/

theorem parse_rollout_steps_eq_ok_iff (raw : String) (fracs : List ℚ) :
    parse_rollout_steps raw = .ok fracs ↔
      ∃ steps, rolloutInts raw = some steps ∧
        (∀ p ∈ steps, 0 ≤ p ∧ p ≤ 100) ∧
        steps.Chain' (· < ·) ∧
        fracs = steps.map (fun step => (step : ℚ) / 100) := by
  unfold parse_rollout_steps
  cases h : rolloutInts raw with
  | none => simp
  | some steps =>
    simp only [Option.some.injEq]
    cases h1 : steps.any (fun step => step < 0 || step > 100) with
    | true =>
      have : ¬ ∀ p ∈ steps, 0 ≤ p ∧ p ≤ 100 := by
        rw [← any_out_of_range_eq_false_iff, h1]; simp
      simp only [if_pos rfl, if_true]
      constructor
      · intro hfalse; exact absurd hfalse (by simp)
      · rintro ⟨s, rfl, hrange, -, -⟩
        exact absurd hrange this
    | false =>
      cases h2 : (steps.zip steps.tail).any (fun p => p.1 ≥ p.2) with
      | true =>
        have : ¬ steps.Chain' (· < ·) := by
          rw [← any_adjacent_ge_eq_false_iff, h2]; simp
        simp only [Bool.false_eq_true, if_false, if_pos rfl, if_true]
        constructor
        · intro hfalse; exact absurd hfalse (by simp)
        · rintro ⟨s, rfl, -, hchain, -⟩
          exact absurd hchain this
      | false =>
        have hrange := (any_out_of_range_eq_false_iff steps).mp h1
        have hchain := (any_adjacent_ge_eq_false_iff steps).mp h2
        simp only [Bool.false_eq_true, if_false, Except.ok.injEq]
        constructor
        · intro heq; exact ⟨steps, rfl, hrange, hchain, heq.symm⟩
        · rintro ⟨s, rfl, -, -, heq⟩; exact heq.symm

theorem parse_rollout_steps_eq_error_iff (raw : String) (e : ParseError) :
    parse_rollout_steps raw = .error e ↔
      (e = .InvalidFormat ∧ rolloutInts raw = none) ∨
      (e = .OutOfRange ∧ ∃ steps, rolloutInts raw = some steps ∧
        ∃ p ∈ steps, p < 0 ∨ 100 < p) ∨
      (e = .NotMonotonic ∧ ∃ steps, rolloutInts raw = some steps ∧
        (∀ p ∈ steps, 0 ≤ p ∧ p ≤ 100) ∧ ¬ steps.Chain' (· < ·)) := by
  unfold parse_rollout_steps
  cases h : rolloutInts raw with
  | none =>
    show Except.error ParseError.InvalidFormat = Except.error e ↔ _
    constructor
    · intro he
      injection he with he'
      exact Or.inl ⟨he'.symm, rfl⟩
    · rintro (⟨rfl, -⟩ | ⟨rfl, s, hs, -⟩ | ⟨rfl, s, hs, -⟩)
      · rfl
      · exact absurd hs (by simp)
      · exact absurd hs (by simp)
  | some steps =>
    show (if steps.any (fun step => step < 0 || step > 100) = true
          then Except.error ParseError.OutOfRange
          else if ((steps.zip steps.tail).any fun p => p.1 ≥ p.2) = true
          then Except.error ParseError.NotMonotonic
          else Except.ok (steps.map fun step => (step : ℚ) / 100)) = Except.error e ↔ _
    rcases Bool.eq_false_or_eq_true (steps.any (fun step => step < 0 || step > 100))
      with h1 | h1
    · rw [if_pos h1]
      have hout : ∃ p ∈ steps, p < 0 ∨ 100 < p := by
        rcases List.any_eq_true.mp h1 with ⟨p, hp, hcond⟩
        simp only [Bool.or_eq_true, decide_eq_true_eq] at hcond
        exact ⟨p, hp, hcond⟩
      have hnotrange : ¬ ∀ p ∈ steps, 0 ≤ p ∧ p ≤ 100 := by
        rw [← any_out_of_range_eq_false_iff, h1]; simp
      constructor
      · intro he
        injection he with he'
        exact he'.symm ▸ Or.inr (Or.inl ⟨rfl, steps, rfl, hout⟩)
      · rintro (⟨rfl, hs⟩ | ⟨rfl, -, -⟩ | ⟨rfl, s, hs, hrangeS, -⟩)
        · exact absurd hs (by simp)
        · rfl
        · injection hs with hs'
          subst hs'
          exact absurd hrangeS hnotrange
    · rw [if_neg (ne_of_eq_of_ne h1 Bool.false_ne_true)]
      have hrange := (any_out_of_range_eq_false_iff steps).mp h1
      rcases Bool.eq_false_or_eq_true ((steps.zip steps.tail).any fun p => p.1 ≥ p.2)
        with h2 | h2
      · rw [if_pos h2]
        have hnotchain : ¬ steps.Chain' (· < ·) := by
          rw [← any_adjacent_ge_eq_false_iff, h2]; simp
        constructor
        · intro he
          injection he with he'
          exact he'.symm ▸ Or.inr (Or.inr ⟨rfl, steps, rfl, hrange, hnotchain⟩)
        · rintro (⟨rfl, hs⟩ | ⟨rfl, s, hs, hout⟩ | ⟨rfl, -, -⟩)
          · exact absurd hs (by simp)
          · injection hs with hs'
            subst hs'
            rcases hout with ⟨p, hp, hc | hc⟩
            · exact absurd (hrange p hp).1 (not_le.mpr hc)
            · exact absurd (hrange p hp).2 (not_le.mpr hc)
          · rfl
      · rw [if_neg (ne_of_eq_of_ne h2 Bool.false_ne_true)]
        have hchain := (any_adjacent_ge_eq_false_iff steps).mp h2
        constructor
        · intro he; exact absurd he (by simp)
        · rintro (⟨rfl, hs⟩ | ⟨rfl, s, hs, hout⟩ | ⟨rfl, s, hs, -, hnotchain⟩)
          · exact absurd hs (by simp)
          · injection hs with hs'
            subst hs'
            rcases hout with ⟨p, hp, hc | hc⟩
            · exact absurd (hrange p hp).1 (not_le.mpr hc)
            · exact absurd (hrange p hp).2 (not_le.mpr hc)
          · injection hs with hs'
            subst hs'
            exact absurd hchain hnotchain

/-! ## Characterization of `selectNext` -/

theorem selectNext_eq_none_iff (current : ℚ) (schedule : List ℚ) :
    selectNext current schedule = none ↔ ∀ x ∈ schedule, x ≤ current := by
  induction schedule with
  | nil => simp [selectNext]
  | cons a l ih =>
    by_cases h : a > current
    · simp only [selectNext, if_pos h, reduceCtorEq, false_iff, not_forall]
      exact ⟨a, by simp, not_le.mpr h⟩
    · simp only [selectNext, if_neg h, ih, List.mem_cons]
      constructor
      · rintro hall x (rfl | hx)
        · exact not_lt.mp h
        · exact hall x hx
      · intro hall x hx
        exact hall x (Or.inr hx)

theorem selectNext_eq_some_iff (current x : ℚ) (schedule : List ℚ) :
    selectNext current schedule = some x ↔
      ∃ l₁ l₂, schedule = l₁ ++ x :: l₂ ∧ current < x ∧ ∀ y ∈ l₁, y ≤ current := by
  induction schedule with
  | nil => simp [selectNext]
  | cons a l ih =>
    by_cases h : a > current
    · simp only [selectNext, if_pos h, Option.some.injEq]
      constructor
      · rintro rfl
        exact ⟨[], l, rfl, h, by simp⟩
      · rintro ⟨l₁, l₂, heq, hcx, hall⟩
        cases l₁ with
        | nil => exact (List.cons.injEq _ _ _ _ ▸ heq).1.symm ▸ rfl
        | cons b l₁ =>
          have hb : b ∈ b :: l₁ := List.mem_cons_self b l₁
          have hab : a = b := (List.cons.injEq _ _ _ _ ▸ heq).1
          exact absurd (hab ▸ hall b hb) (not_le.mpr h)
    · simp only [selectNext, if_neg h, ih]
      constructor
      · rintro ⟨l₁, l₂, heq, hcx, hall⟩
        refine ⟨a :: l₁, l₂, by simp [heq], hcx, ?_⟩
        rintro y hy
        rcases List.mem_cons.mp hy with rfl | hy
        · exact not_lt.mp h
        · exact hall y hy
      · rintro ⟨l₁, l₂, heq, hcx, hall⟩
        cases l₁ with
        | nil =>
          have hax : a = x := (List.cons.injEq _ _ _ _ ▸ heq).1
          exact absurd (hax ▸ hcx) h
        | cons b l₁ =>
          have hl : l = l₁ ++ x :: l₂ := (List.cons.injEq _ _ _ _ ▸ heq).2
          refine ⟨l₁, l₂, hl, hcx, fun y hy => hall y (List.mem_cons_of_mem b hy)⟩

/-! ## Lemmas about the release loop -/

theorem processReleases_terminal (raw : String) (r : Release) (rest : List Release)
    (h : r.status = "completed" ∨ r.status = "halted") :
    processReleases raw (r :: rest) = ([], .exitZero) := by
  rcases h with h | h
  · simp [processReleases, h]
  · simp [processReleases, h]

theorem postCount_processReleases (raw : String) (steps : List ℚ)
    (h : parse_rollout_steps raw = .ok steps) (rs : List Release) :
    postCount (processReleases raw rs).1 =
      (rs.takeWhile (handledInProgress steps)).length := by
  induction rs with
  | nil => simp [processReleases, postCount]
  | cons r rest ih =>
    by_cases hc : r.status = "completed"
    · simp [processReleases, hc, postCount, handledInProgress]
    · by_cases hh : r.status = "halted"
      · simp [processReleases, hc, hh, postCount, handledInProgress]
      · cases hn : selectNext r.userFraction steps with
        | none =>
          simp [processReleases, hc, hh, h, hn, postCount, handledInProgress,
            Event.isPost]
        | some next =>
          simp only [processReleases, if_neg hc, if_neg hh, h, hn]
          simp only [postCount, List.filter, Event.isPost] at ih ⊢
          simp [List.takeWhile_cons, handledInProgress, hc, hh, hn, ih]

/-! ## Concrete evaluations shared by several checks -/

theorem rolloutInts_standard : rolloutInts "1,20,50,100" = some [1, 20, 50, 100] := by
  decide

theorem parse_steps_standard :
    parse_rollout_steps "1,20,50,100" = .ok [1/100, 1/5, 1/2, 1] := by
  simp [parse_rollout_steps, rolloutInts_standard]
  norm_num

theorem selectNext_standard_at_one : selectNext 1 [100⁻¹, 5⁻¹, 2⁻¹, 1] = none := by
  simp only [selectNext]
  norm_num

theorem selectNext_standard_at_zero :
    selectNext 0 [100⁻¹, 5⁻¹, 2⁻¹, 1] = some 100⁻¹ := by
  simp only [selectNext]
  norm_num

/-! ## Claims -/

/-- C1: the spec holds that an in-progress release whose current rollout
fraction is at or beyond every schedule step is a normal terminal
outcome, with the "no action" decision handed to the notifier and the
run completing without an exception.  The code instead dies: with the
valid schedule `"1,20,50,100"` and an in-progress release at fraction
`1.0`, the scan selects no next step and building the notification
payload evaluates `None * 100` (source line 217), an unhandled
`TypeError`, so the run crashes after the parse attempt and before any
POST. -/
theorem c1_exhausted_schedule_type_error :
    runMain "1,20,50,100" (some [⟨"inProgress", 1⟩]) =
      ([Event.parseAttempt], RunResult.typeError) := by
  simp [runMain, processReleases, parse_steps_standard, selectNext_standard_at_one]

/-- C2 counterexample: the claim says each invocation performs at most
one notification POST even when the release list holds more than one
in-progress release.  With the valid schedule `"1,20,50,100"` and two
in-progress releases at fraction `0`, the loop POSTs for the first
release and then continues into the second, so the run performs two
POSTs. -/
theorem c2_cex_two_in_progress_two_posts :
    postCount (runMain "1,20,50,100"
        (some [⟨"inProgress", 0⟩, ⟨"inProgress", 0⟩])).1 = 2 ∧
    ¬ postCount (runMain "1,20,50,100"
        (some [⟨"inProgress", 0⟩, ⟨"inProgress", 0⟩])).1 ≤ 1 := by
  have h : postCount (runMain "1,20,50,100"
      (some [⟨"inProgress", 0⟩, ⟨"inProgress", 0⟩])).1 = 2 := by
    simp [runMain, processReleases, parse_steps_standard,
      selectNext_standard_at_zero, postCount, Event.isPost]
  exact ⟨h, by rw [h]; omega⟩

/-- C2 (amended): releases are processed in order; a terminal status or
a missing next step stops the loop, but a fully-handled in-progress
release does not, so when the schedule parses the number of POSTs
equals the length of the longest prefix of fully-handled in-progress
releases — possibly more than one. -/
theorem c2_posts_count_handled_prefix (raw : String) (steps : List ℚ)
    (h : parse_rollout_steps raw = .ok steps) (rs : List Release) :
    postCount (processReleases raw rs).1 =
      (rs.takeWhile (handledInProgress steps)).length :=
  postCount_processReleases raw steps h rs

/-- C2 witness: the amended count at a concrete input — two in-progress
releases at fraction `0` under the schedule `"1,20,50,100"` give a
handled prefix of length two. -/
theorem c2_posts_count_handled_prefix_witness :
    postCount (processReleases "1,20,50,100"
        [⟨"inProgress", 0⟩, ⟨"inProgress", 0⟩]).1 =
      ([⟨"inProgress", 0⟩, (⟨"inProgress", 0⟩ : Release)].takeWhile
        (handledInProgress [1/100, 1/5, 1/2, 1])).length :=
  c2_posts_count_handled_prefix "1,20,50,100" [1/100, 1/5, 1/2, 1]
    parse_steps_standard [⟨"inProgress", 0⟩, ⟨"inProgress", 0⟩]

/-- C3: parsing succeeds iff every comma-separated token parses as an
integer, every integer lies in `[0, 100]`, and the sequence is strictly
increasing; the successful result is the elementwise conversion
`P / 100.0`, order-preserving; and a single-element list whose value is
in range is always valid. -/
theorem c3_parse_success_characterization (raw : String) :
    ((rolloutInts raw).isSome ↔
      ∀ t ∈ splitComma raw.data, (tokenInt t).isSome) ∧
    ((∃ fracs, parse_rollout_steps raw = .ok fracs) ↔
      ∃ steps, rolloutInts raw = some steps ∧
        (∀ p ∈ steps, 0 ≤ p ∧ p ≤ 100) ∧ steps.Chain' (· < ·)) ∧
    (∀ fracs, parse_rollout_steps raw = .ok fracs →
      ∃ steps, rolloutInts raw = some steps ∧
        fracs = steps.map (fun step => (step : ℚ) / 100)) ∧
    (∀ p : ℤ, rolloutInts raw = some [p] → 0 ≤ p → p ≤ 100 →
      parse_rollout_steps raw = .ok [(p : ℚ) / 100]) := by
  refine ⟨intsOfTokens_isSome_iff (splitComma raw.data), ?_, ?_, ?_⟩
  · constructor
    · rintro ⟨fracs, hok⟩
      rcases (parse_rollout_steps_eq_ok_iff raw fracs).mp hok with
        ⟨steps, hsome, hrange, hchain, -⟩
      exact ⟨steps, hsome, hrange, hchain⟩
    · rintro ⟨steps, hsome, hrange, hchain⟩
      exact ⟨steps.map (fun step => (step : ℚ) / 100),
        (parse_rollout_steps_eq_ok_iff raw _).mpr
          ⟨steps, hsome, hrange, hchain, rfl⟩⟩
  · intro fracs hok
    rcases (parse_rollout_steps_eq_ok_iff raw fracs).mp hok with
      ⟨steps, hsome, -, -, hmap⟩
    exact ⟨steps, hsome, hmap⟩
  · intro p hsome h0 h100
    exact (parse_rollout_steps_eq_ok_iff raw _).mpr
      ⟨[p], hsome, by simpa using ⟨h0, h100⟩, List.chain'_singleton p, rfl⟩

/-- C4: for every current fraction and schedule, the scan returns the
first step in schedule order strictly greater than the current
fraction; a step equal to the current fraction is never selected; and
when no step is strictly greater the result is `none`. -/
theorem c4_select_first_strictly_greater (current : ℚ) (schedule : List ℚ) :
    (∀ x, selectNext current schedule = some x ↔
      ∃ l₁ l₂, schedule = l₁ ++ x :: l₂ ∧ current < x ∧ ∀ y ∈ l₁, y ≤ current) ∧
    (∀ x, selectNext current schedule = some x → x ≠ current) ∧
    (selectNext current schedule = none ↔ ∀ x ∈ schedule, x ≤ current) := by
  refine ⟨fun x => selectNext_eq_some_iff current x schedule, fun x hx => ?_,
    selectNext_eq_none_iff current schedule⟩
  rcases (selectNext_eq_some_iff current x schedule).mp hx with ⟨-, -, -, hcx, -⟩
  exact ne_of_gt hcx

/-- C5: a release whose status is `"completed"` or `"halted"`
short-circuits the loop body before schedule parsing: the run exits with
code 0, the trace is empty (so `parse_rollout_steps` is never invoked
and nothing is POSTed), whatever the raw schedule string holds. -/
theorem c5_terminal_status_short_circuits (raw : String) (r : Release)
    (rest : List Release) (h : r.status = "completed" ∨ r.status = "halted") :
    processReleases raw (r :: rest) = ([], .exitZero) :=
  processReleases_terminal raw r rest h

/-- C5 witness: a completed release with a malformed schedule string
still exits gracefully with an empty trace. -/
theorem c5_terminal_status_short_circuits_witness :
    processReleases "not a number" [⟨"completed", 0⟩] = ([], .exitZero) :=
  c5_terminal_status_short_circuits "not a number" ⟨"completed", 0⟩ [] (Or.inl rfl)

/-- C6: when the schedule string fails validation, no notification POST
ever happens, and whenever the parser was actually reached (a parse
attempt is in the trace) the run ends with the fatal validation error. -/
theorem c6_validation_error_blocks_posts (raw : String) (e : ParseError)
    (releases : Option (List Release))
    (h : parse_rollout_steps raw = .error e) :
    postCount (runMain raw releases).1 = 0 ∧
    (Event.parseAttempt ∈ (runMain raw releases).1 →
      (runMain raw releases).2 = .fatalError e) := by
  match releases with
  | none => simp [runMain, postCount]
  | some [] => simp [runMain, postCount]
  | some (r :: rest) =>
    by_cases hc : r.status = "completed"
    · simp [runMain, processReleases, hc, postCount]
    · by_cases hh : r.status = "halted"
      · simp [runMain, processReleases, hc, hh, postCount]
      · simp [runMain, processReleases, hc, hh, h, postCount, Event.isPost]

theorem parse_steps_descending :
    parse_rollout_steps "50,20" = .error .NotMonotonic := by
  have h : rolloutInts "50,20" = some [50, 20] := by decide
  simp [parse_rollout_steps, h]

/-- C6 witness: the non-monotonic schedule `"50,20"` with one
in-progress release produces no POST and a fatal `NotMonotonic` end. -/
theorem c6_validation_error_blocks_posts_witness :
    postCount (runMain "50,20" (some [⟨"inProgress", 0⟩])).1 = 0 ∧
    (Event.parseAttempt ∈ (runMain "50,20" (some [⟨"inProgress", 0⟩])).1 →
      (runMain "50,20" (some [⟨"inProgress", 0⟩])).2 =
        .fatalError .NotMonotonic) :=
  c6_validation_error_blocks_posts "50,20" .NotMonotonic
    (some [⟨"inProgress", 0⟩]) parse_steps_descending

/-- C7: error classification has a fixed precedence — `InvalidFormat`
exactly when some token fails integer parsing; `OutOfRange` exactly when
every token parses and some value is outside `[0, 100]` (whatever the
ordering of the values); `NotMonotonic` exactly when every token parses,
every value is in range, and the sequence is not strictly increasing. -/
theorem c7_error_precedence (raw : String) :
    (parse_rollout_steps raw = .error .InvalidFormat ↔
      ∃ t ∈ splitComma raw.data, tokenInt t = none) ∧
    (parse_rollout_steps raw = .error .OutOfRange ↔
      ∃ steps, rolloutInts raw = some steps ∧ ∃ p ∈ steps, p < 0 ∨ 100 < p) ∧
    (parse_rollout_steps raw = .error .NotMonotonic ↔
      ∃ steps, rolloutInts raw = some steps ∧
        (∀ p ∈ steps, 0 ≤ p ∧ p ≤ 100) ∧ ¬ steps.Chain' (· < ·)) := by
  refine ⟨?_, ?_, ?_⟩
  · rw [parse_rollout_steps_eq_error_iff]
    simp [rolloutInts, intsOfTokens_eq_none_iff]
  · rw [parse_rollout_steps_eq_error_iff]
    simp
  · rw [parse_rollout_steps_eq_error_iff]
    simp

/-- C8: a track whose release list is absent or empty exits gracefully
with code 0 and an empty trace — no POST, no parse attempt. -/
theorem c8_no_releases_graceful (raw : String) :
    runMain raw none = ([], .exitZero) ∧ runMain raw (some []) = ([], .exitZero) :=
  ⟨rfl, rfl⟩

/-- C9: the empty schedule string splits into the single empty token,
that token fails integer parsing, and the parse fails with
`InvalidFormat`. -/
theorem c9_empty_string_invalid_format :
    splitComma ("".data) = [[]] ∧ tokenInt [] = none ∧
    parse_rollout_steps "" = .error .InvalidFormat := by
  refine ⟨rfl, rfl, ?_⟩
  have h : rolloutInts "" = none := by decide
  simp [parse_rollout_steps, h]

/-- C10: each token is stripped of surrounding whitespace before
integer parsing, so any two schedule strings whose token lists agree
after stripping parse identically — in particular inserting spaces
around tokens changes nothing. -/
theorem c10_whitespace_insensitive (raw₁ raw₂ : String)
    (h : (splitComma raw₁.data).map stripChars =
      (splitComma raw₂.data).map stripChars) :
    parse_rollout_steps raw₁ = parse_rollout_steps raw₂ := by
  unfold parse_rollout_steps rolloutInts
  rw [intsOfTokens_congr _ _ h]

/-- C10 witness: `"1, 20, 50"` parses exactly as `"1,20,50"`. -/
theorem c10_whitespace_insensitive_witness :
    parse_rollout_steps "1, 20, 50" = parse_rollout_steps "1,20,50" :=
  c10_whitespace_insensitive "1, 20, 50" "1,20,50" (by decide)

end PhasedRelease
